import Mathlib

/-!
Verification of the `json2jsonl` converter (`src/main.rs`).

The program reads one top-level JSON array and writes each element on its
own newline-terminated output record.  The core consists of:

* `SkipState::skip` (main.rs lines 67-88): a gap scanner that, given the
  current lookahead window, skips whitespace and consumes exactly one
  structural token (`[` at the beginning, `,` or `]` afterwards), or
  aborts on any other non-whitespace byte.
* `BufReaderWithCount` (main.rs lines 23-53): a buffered reader whose
  `read` and `consume` add the consumed byte count to a counter, while
  `fill_buf` (peeking) leaves the counter unchanged.
* `main` (main.rs lines 90-164): the driver loop alternating the gap
  scanner with an external single-value JSON parser (`serde_json`
  deserializing a `Box<RawValue>`), echoing each raw value plus `\n`.

Bytes are modelled as `Nat` (values of interest are < 256).  Input is a
fixed `List Nat`; the reader is modelled as a position `pos` into that
list together with the byte counter `count`.  The lookahead window
returned by `fill_buf` is an arbitrary non-empty prefix of the remaining
input (empty exactly at end of input); the arbitrary split of the input
into windows is captured by an `oracle : Nat → Nat` giving, for the
current position, one less than the maximal window size offered.  The
driver loop is modelled with explicit fuel; `RunRes.fuelOut` means the
fuel ran out, so a result that is `fuelOut` for *every* fuel corresponds
to a non-terminating run of the Rust program.
-/

namespace Json2Jsonl

/-- Whitespace test of the gap scanner, main.rs line 73:
space (32), tab (9), newline (10).  Carriage return (13) is *not* here. -/
def isWs (c : Nat) : Bool := c == 32 || c == 9 || c == 10

/-- Result of one `skip` call, main.rs lines 55-60. -/
inductive SkipRes where
  | keepSkipping
  | expectValue
  | end_
deriving DecidableEq, Repr

/-- Scanner state, main.rs lines 62-65. -/
structure SkipState where
  at_beginning : Bool
deriving DecidableEq, Repr

/-- Loop body of `SkipState::skip`, main.rs lines 68-87.  `b` is
`at_beginning`, `i` the running count of consumed bytes.  `none` models
the `panic!` on a malformed byte (main.rs line 83). -/
def skipAux (b : Bool) : List Nat → Nat → Option (Bool × SkipRes × Nat)
  | [], i => some (b, .keepSkipping, i)
  | c :: buf, i =>
    if isWs c then skipAux b buf (i + 1)
    else if c == 91 && b then some (false, .expectValue, i + 1)
    else if c == 44 && !b then some (b, .expectValue, i + 1)
    else if c == 93 && !b then some (b, .end_, i + 1)
    else none

/-- `SkipState::skip`, main.rs lines 67-88: scan a window, returning the
updated state, the result, and the number of consumed bytes; `none` is
the malformed-input panic. -/
def SkipState.skip (st : SkipState) (buf : List Nat) :
    Option (SkipState × SkipRes × Nat) :=
  match skipAux st.at_beginning buf 0 with
  | none => none
  | some (b, r, n) => some (⟨b⟩, r, n)

/-- State of one run of `main`: reader position, the byte counter of
`BufReaderWithCount` (main.rs lines 23-53), the scanner state and the
bytes written to the output so far. -/
structure RunState where
  pos : Nat
  count : Nat
  skipSt : SkipState
  out : List Nat
deriving DecidableEq, Repr

/-- The lookahead window offered by `fill_buf` at state `s`: some
non-empty prefix of the remaining input (empty iff the input is
exhausted).  `oracle` picks the window size, so theorems quantified over
`oracle` hold for every possible chunking of the input.  `fill_buf`
does not change `count` (main.rs lines 45-47). -/
def window (input : List Nat) (oracle : Nat → Nat) (s : RunState) : List Nat :=
  (input.drop s.pos).take (oracle s.pos + 1)

/-- Result of the inner `remove_prefix` loop of `main`
(main.rs lines 124-141). -/
inductive PrefRes where
  | expectValue (s : RunState)
  | finished (s : RunState)
  | panicked (s : RunState)
  | fuelOut
deriving DecidableEq, Repr

/-- The `remove_prefix` loop, main.rs lines 124-141: repeatedly
`fill_buf`, `skip`, `consume` (which adds to `count`, main.rs
lines 49-52) until the scanner reports `ExpectValue` or `End`.
`fuelOut` for every fuel means the loop never exits. -/
def scanGap (input : List Nat) (oracle : Nat → Nat) : Nat → RunState → PrefRes
  | 0, _ => .fuelOut
  | fuel + 1, s =>
    match s.skipSt.skip (window input oracle s) with
    | none => .panicked s
    | some (st2, res, n) =>
      let s2 : RunState :=
        { pos := s.pos + n, count := s.count + n, skipSt := st2, out := s.out }
      match res with
      | .keepSkipping => scanGap input oracle fuel s2
      | .expectValue => .expectValue s2
      | .end_ => .finished s2

/-- Result of a whole run of `main`'s `outer_loop`
(main.rs lines 122-156). -/
inductive RunRes where
  | ok (s : RunState)
  | parseError (s : RunState)
  | panicked (s : RunState)
  | fuelOut
deriving DecidableEq, Repr

/-- The `outer_loop` of `main`, main.rs lines 122-156, parameterized by
the external single-value parser `P`.  Per the spec (§4.3), `P`,
positioned at the remaining input, consumes exactly the bytes of one
JSON value (any leading whitespace included) and yields the raw text of
that value, or fails (`ValueParseError`).  Those consumed bytes pass
through `BufReaderWithCount::read` (main.rs lines 37-43), which adds
them to `count`; the raw text plus a newline is written to the output
(main.rs lines 143-148). -/
def mainLoop (input : List Nat) (oracle : Nat → Nat)
    (P : List Nat → Option (Nat × List Nat)) : Nat → RunState → RunRes
  | 0, _ => .fuelOut
  | fuel + 1, s =>
    match scanGap input oracle (fuel + 1) s with
    | .fuelOut => .fuelOut
    | .panicked s2 => .panicked s2
    | .finished s2 => .ok s2
    | .expectValue s2 =>
      match P (input.drop s2.pos) with
      | none => .parseError s2
      | some (m, raw) =>
        mainLoop input oracle P fuel
          { pos := s2.pos + m, count := s2.count + m, skipSt := s2.skipSt,
            out := s2.out ++ raw ++ [10] }

/-- Initial state of `main`: position and counter zero (main.rs
lines 29-34, 118), `at_beginning = true` (main.rs line 119), empty
output. -/
def initState : RunState := { pos := 0, count := 0, skipSt := ⟨true⟩, out := [] }

/-- A whole run of the program on `input`, under window chunking
`oracle` and external value parser `P`. -/
def pipeline (input : List Nat) (oracle : Nat → Nat)
    (P : List Nat → Option (Nat × List Nat)) (fuel : Nat) : RunRes :=
  mainLoop input oracle P fuel initState

/-! ### A concrete external value parser

`main` delegates value parsing to `serde_json` (a `Box<RawValue>`
deserialization, main.rs lines 144-146), which is not part of this
repository.  Modelled from the spec (§4.3, §6): the external parser
consumes exactly the bytes belonging to one JSON value (skipping the
whitespace in front of it) and captures the value's raw text, or fails
on invalid input.  This executable model instantiates the parser
parameter `P` in concrete runs and witnesses. -/

/-- JSON whitespace accepted by the external parser: space, tab,
newline, carriage return. -/
def isWsJson (c : Nat) : Bool := c == 32 || c == 9 || c == 10 || c == 13

/-- Bytes that may continue a JSON number token. -/
def isNumByte (c : Nat) : Bool :=
  (48 ≤ c && c ≤ 57) || c == 45 || c == 43 || c == 46 || c == 101 || c == 69

/-- Scan a JSON string body (after the opening quote) up to and
including the closing quote, honouring backslash escapes.  Returns the
consumed bytes and the rest. -/
def scanString : Nat → List Nat → Option (List Nat × List Nat)
  | 0, _ => none
  | _ + 1, [] => none
  | fuel + 1, c :: rest =>
    if c == 34 then some ([34], rest)
    else if c == 92 then
      match rest with
      | [] => none
      | d :: rest2 =>
        match scanString fuel rest2 with
        | none => none
        | some (v, r) => some (92 :: d :: v, r)
    else
      match scanString fuel rest with
      | none => none
      | some (v, r) => some (c :: v, r)

/-- Scan the body of a JSON array or object (after the opening bracket)
up to and including the bracket closing nesting depth `depth`, treating
string literals opaquely. -/
def scanContainer : Nat → Nat → List Nat → Option (List Nat × List Nat)
  | 0, _, _ => none
  | _ + 1, _, [] => none
  | fuel + 1, depth, c :: rest =>
    if c == 34 then
      match scanString fuel rest with
      | none => none
      | some (v, r) =>
        match scanContainer fuel depth r with
        | none => none
        | some (w, r2) => some (34 :: (v ++ w), r2)
    else if c == 91 || c == 123 then
      match scanContainer fuel (depth + 1) rest with
      | none => none
      | some (w, r2) => some (c :: w, r2)
    else if c == 93 || c == 125 then
      if depth == 1 then some ([c], rest)
      else
        match scanContainer fuel (depth - 1) rest with
        | none => none
        | some (w, r2) => some (c :: w, r2)
    else
      match scanContainer fuel depth rest with
      | none => none
      | some (w, r2) => some (c :: w, r2)

/-- Scan exactly one JSON value at the head of the input, returning its
bytes and the rest. -/
def scanValue : Nat → List Nat → Option (List Nat × List Nat)
  | 0, _ => none
  | _ + 1, [] => none
  | fuel + 1, c :: rest =>
    if c == 34 then
      match scanString fuel rest with
      | none => none
      | some (v, r) => some (34 :: v, r)
    else if c == 91 || c == 123 then
      match scanContainer fuel 1 rest with
      | none => none
      | some (w, r) => some (c :: w, r)
    else if c == 116 then
      match rest with
      | 114 :: 117 :: 101 :: r => some ([116, 114, 117, 101], r)
      | _ => none
    else if c == 102 then
      match rest with
      | 97 :: 108 :: 115 :: 101 :: r => some ([102, 97, 108, 115, 101], r)
      | _ => none
    else if c == 110 then
      match rest with
      | 117 :: 108 :: 108 :: r => some ([110, 117, 108, 108], r)
      | _ => none
    else if (48 ≤ c && c ≤ 57) || c == 45 then
      some (c :: rest.takeWhile isNumByte, rest.dropWhile isNumByte)
    else none

/-- The concrete external value parser: skip leading JSON whitespace,
then consume exactly one JSON value; return the total number of consumed
bytes together with the value's raw text. -/
def jsonParse (l : List Nat) : Option (Nat × List Nat) :=
  let a := l.takeWhile isWsJson
  let r := l.dropWhile isWsJson
  match scanValue (r.length + 1) r with
  | none => none
  | some (v, _) => some (a.length + v.length, v)

/-! ### The shape of a well-formed top-level array input

A well-formed input with elements `v1 … vn` decomposes into leading
whitespace, the opening bracket, and for each element: the bytes `seg`
the external parser consumes for it (any whitespace in front of the
value plus the value text `raw`), the whitespace gap `gap` the scanner
crosses after it, and a `,` before each further element, with `]` at the
end.  `suffix` is whatever trails the closing bracket. -/

/-- One element of the top-level array: `seg` = bytes the external
parser consumes for it, `raw` = the raw value text it captures,
`gap` = the whitespace scanned after it. -/
structure Item where
  seg : List Nat
  raw : List Nat
  gap : List Nat
deriving DecidableEq, Repr

/-- Input bytes remaining right after an element's gap: a `,` and the
further elements, or the closing `]`. -/
def afterItems : List Item → List Nat
  | [] => [93]
  | it :: rest => 44 :: (it.seg ++ it.gap ++ afterItems rest)

/-- Input bytes following the opening `[`. -/
def bodyItems : List Item → List Nat
  | [] => [93]
  | it :: rest => it.seg ++ it.gap ++ afterItems rest

/-- A full input: leading whitespace `g0`, `[`, the elements, `]`, and
trailing bytes `suffix`. -/
def wfInput (g0 : List Nat) (items : List Item) (suffix : List Nat) : List Nat :=
  g0 ++ 91 :: bodyItems items ++ suffix

/-- The expected output: each element's raw text followed by a
newline. -/
def outLines (items : List Item) : List Nat :=
  (items.map (fun it => it.raw ++ [10])).flatten

/-- The external-parser contract (spec §4.3) instantiated at each
element position of the input: called on the remaining input, the
parser consumes exactly the element's `seg` bytes and captures its
`raw` text. -/
def parserOk (P : List Nat → Option (Nat × List Nat)) (suffix : List Nat) :
    List Item → Bool
  | [] => true
  | it :: rest =>
    (P (it.seg ++ it.gap ++ afterItems rest ++ suffix)
        == some (it.seg.length, it.raw)) &&
    parserOk P suffix rest

/-- All gaps consist of scanner whitespace only. -/
def gapsWs : List Item → Bool
  | [] => true
  | it :: rest => it.gap.all isWs && gapsWs rest

/-! ### Lemmas about the gap scanner -/

/-- Scanning a whitespace-only stretch just walks over it. -/
lemma skipAux_ws_append {b : Bool} {g : List Nat} (hg : g.all isWs = true) :
    ∀ (i : Nat) (buf : List Nat),
      skipAux b (g ++ buf) i = skipAux b buf (i + g.length) := by
  induction g with
  | nil => intro i buf; simp
  | cons c g ih =>
    intro i buf
    rw [List.all_cons, Bool.and_eq_true] at hg
    simp only [List.cons_append, skipAux, hg.1, if_true, List.append_eq]
    rw [ih hg.2]
    congr 1
    simp
    omega

/-- A whitespace-only window is consumed whole, keeping scanning. -/
lemma skipAux_ws {b : Bool} {w : List Nat} (hw : w.all isWs = true) :
    skipAux b w 0 = some (b, .keepSkipping, w.length) := by
  have h := skipAux_ws_append (b := b) hw 0 []
  simpa [skipAux] using h

/-- The three structural tokens are not scanner whitespace. -/
lemma isWs_token {tok : Nat} (htok : tok = 91 ∨ tok = 44 ∨ tok = 93) :
    isWs tok = false := by
  rcases htok with h | h | h <;> subst h <;> decide

/-- Scanning whitespace followed by `[` in the initial state consumes
the whitespace and the bracket and asks for a value. -/
lemma skipAux_open {g : List Nat} (hg : g.all isWs = true) (tail : List Nat) :
    skipAux true (g ++ 91 :: tail) 0 =
      some (false, .expectValue, g.length + 1) := by
  rw [skipAux_ws_append hg]
  simp [skipAux, isWs]

/-- Scanning whitespace followed by `,` in a non-initial state consumes
the whitespace and the comma and asks for a value. -/
lemma skipAux_comma {g : List Nat} (hg : g.all isWs = true) (tail : List Nat) :
    skipAux false (g ++ 44 :: tail) 0 =
      some (false, .expectValue, g.length + 1) := by
  rw [skipAux_ws_append hg]
  simp [skipAux, isWs]

/-- Scanning whitespace followed by `]` in a non-initial state consumes
the whitespace and the bracket and finishes. -/
lemma skipAux_close {g : List Nat} (hg : g.all isWs = true) (tail : List Nat) :
    skipAux false (g ++ 93 :: tail) 0 =
      some (false, .end_, g.length + 1) := by
  rw [skipAux_ws_append hg]
  simp [skipAux, isWs]

/-- `SkipState.skip` consumes a whitespace-only window whole. -/
lemma skip_ws {st : SkipState} {w : List Nat} (hw : w.all isWs = true) :
    st.skip w = some (st, .keepSkipping, w.length) := by
  unfold SkipState.skip
  rw [skipAux_ws hw]

/-! ### The `remove_prefix` loop -/

/-- The `remove_prefix` loop on a whitespace gap followed by a
structural token: whatever sizes `fill_buf` offers, the loop consumes
exactly the gap and the token, adds that amount to position and
counter, and reports `ExpectValue` (after `[` or `,`) or `End`
(after `]`). -/
lemma scanGap_spec (input : List Nat) (oracle : Nat → Nat) :
    ∀ (fuel : Nat) (g tail : List Nat) (tok : Nat) (s : RunState),
      input.drop s.pos = g ++ tok :: tail →
      g.all isWs = true →
      ((s.skipSt.at_beginning = true ∧ tok = 91) ∨
        (s.skipSt.at_beginning = false ∧ (tok = 44 ∨ tok = 93))) →
      g.length + 1 ≤ fuel →
      scanGap input oracle fuel s =
        (if tok == 93 then PrefRes.finished else PrefRes.expectValue)
          { pos := s.pos + (g.length + 1), count := s.count + (g.length + 1),
            skipSt := ⟨false⟩, out := s.out } := by
  intro fuel
  induction fuel with
  | zero => intro g tail tok s _ _ _ hfuel; omega
  | succ f ih =>
    intro g tail tok s hrem hg htok hfuel
    by_cases hle : oracle s.pos + 1 ≤ g.length
    · -- the window stays inside the whitespace gap
      have hwin : window input oracle s = g.take (oracle s.pos + 1) := by
        unfold window
        rw [hrem, List.take_append_eq_append_take,
          Nat.sub_eq_zero_of_le hle, List.take_zero, List.append_nil]
      have hws : (g.take (oracle s.pos + 1)).all isWs = true := by
        rw [List.all_eq_true] at hg ⊢
        exact fun x hx => hg x (List.take_subset _ _ hx)
      have hlen : (g.take (oracle s.pos + 1)).length = oracle s.pos + 1 := by
        rw [List.length_take]
        omega
      have hskip : s.skipSt.skip (window input oracle s) =
          some (s.skipSt, .keepSkipping, oracle s.pos + 1) := by
        rw [hwin, skip_ws hws, hlen]
      simp only [scanGap, hskip]
      have hdrop : input.drop (s.pos + (oracle s.pos + 1)) =
          g.drop (oracle s.pos + 1) ++ tok :: tail := by
        rw [← List.drop_drop, hrem, List.drop_append_eq_append_drop,
          Nat.sub_eq_zero_of_le hle, List.drop_zero]
      have hws2 : (g.drop (oracle s.pos + 1)).all isWs = true := by
        rw [List.all_eq_true] at hg ⊢
        exact fun x hx => hg x (List.drop_subset _ _ hx)
      rw [ih (g.drop (oracle s.pos + 1)) tail tok
        ⟨s.pos + (oracle s.pos + 1), s.count + (oracle s.pos + 1), s.skipSt, s.out⟩
        hdrop hws2 htok (by simp only [List.length_drop]; omega)]
      have heq1 : s.pos + (oracle s.pos + 1) + ((g.drop (oracle s.pos + 1)).length + 1)
          = s.pos + (g.length + 1) := by simp only [List.length_drop]; omega
      have heq2 : s.count + (oracle s.pos + 1) + ((g.drop (oracle s.pos + 1)).length + 1)
          = s.count + (g.length + 1) := by simp only [List.length_drop]; omega
      rw [heq1, heq2]
    · -- the window reaches the structural token
      obtain ⟨j, hj⟩ : ∃ j, oracle s.pos + 1 - g.length = j + 1 :=
        ⟨oracle s.pos - g.length, by omega⟩
      have hwin : window input oracle s = g ++ tok :: tail.take j := by
        unfold window
        rw [hrem, List.take_append_eq_append_take,
          List.take_of_length_le (by omega), hj, List.take_succ_cons]
      rcases htok with ⟨hb, htk⟩ | ⟨hb, htk⟩
      · subst htk
        have hskip : s.skipSt.skip (window input oracle s) =
            some (⟨false⟩, .expectValue, g.length + 1) := by
          unfold SkipState.skip
          rw [hwin, hb, skipAux_open hg]
        simp [scanGap, hskip]
      · rcases htk with htk | htk <;> subst htk
        · have hskip : s.skipSt.skip (window input oracle s) =
              some (⟨false⟩, .expectValue, g.length + 1) := by
            unfold SkipState.skip
            rw [hwin, hb, skipAux_comma hg]
          simp [scanGap, hskip]
        · have hskip : s.skipSt.skip (window input oracle s) =
              some (⟨false⟩, .end_, g.length + 1) := by
            unfold SkipState.skip
            rw [hwin, hb, skipAux_close hg]
          simp [scanGap, hskip]

/-- At end of input `fill_buf` returns an empty window, `skip` reports
`KeepSkipping` having consumed nothing, and the `remove_prefix` loop
repeats without progress: it runs out of any amount of fuel, i.e. the
program spins forever. -/
lemma scanGap_eof (input : List Nat) (oracle : Nat → Nat) :
    ∀ (fuel : Nat) (s : RunState), input.length ≤ s.pos →
      scanGap input oracle fuel s = .fuelOut := by
  intro fuel
  induction fuel with
  | zero => intro s _; rfl
  | succ f ih =>
    intro s hpos
    have hwin : window input oracle s = [] := by
      unfold window
      rw [List.drop_eq_nil_of_le hpos, List.take_nil]
    have hskip : s.skipSt.skip (window input oracle s) =
        some (s.skipSt, .keepSkipping, 0) := by
      rw [hwin]
      exact skip_ws rfl
    simp only [scanGap, hskip]
    exact ih _ (by simpa using hpos)

/-- Once the input is exhausted, a further `outer_loop` iteration never
returns: `main` hangs instead of detecting end of input. -/
lemma mainLoop_eof (input : List Nat) (oracle : Nat → Nat)
    (P : List Nat → Option (Nat × List Nat)) (fuel : Nat) (s : RunState)
    (hpos : input.length ≤ s.pos) :
    mainLoop input oracle P fuel s = .fuelOut := by
  cases fuel with
  | zero => rfl
  | succ f => simp only [mainLoop, scanGap_eof input oracle (f + 1) s hpos]

/-- One `outer_loop` iteration whose scan asks for a value and whose
parse succeeds: consume the parsed bytes and emit the raw text plus a
newline. -/
lemma mainLoop_step_ev {input : List Nat} {oracle : Nat → Nat}
    {P : List Nat → Option (Nat × List Nat)} {fuel : Nat} {s s2 : RunState}
    {m : Nat} {raw : List Nat}
    (hscan : scanGap input oracle (fuel + 1) s = .expectValue s2)
    (hP : P (input.drop s2.pos) = some (m, raw)) :
    mainLoop input oracle P (fuel + 1) s =
      mainLoop input oracle P fuel
        ⟨s2.pos + m, s2.count + m, s2.skipSt, s2.out ++ raw ++ [10]⟩ := by
  simp only [mainLoop, hscan, hP]

/-- One `outer_loop` iteration whose scan asks for a value and whose
parse fails: the run ends in a parse error. -/
lemma mainLoop_step_err {input : List Nat} {oracle : Nat → Nat}
    {P : List Nat → Option (Nat × List Nat)} {fuel : Nat} {s s2 : RunState}
    (hscan : scanGap input oracle (fuel + 1) s = .expectValue s2)
    (hP : P (input.drop s2.pos) = none) :
    mainLoop input oracle P (fuel + 1) s = .parseError s2 := by
  simp only [mainLoop, hscan, hP]

/-- Unfolding of the expected output on a first element. -/
lemma outLines_cons (it : Item) (rest : List Item) :
    outLines (it :: rest) = (it.raw ++ [10]) ++ outLines rest := by
  simp [outLines]

/-- Packaging of equality of successful results. -/
lemma ok_state_eq {p1 c1 p2 c2 : Nat} {st : SkipState} {o1 o2 : List Nat}
    (hp : p1 = p2) (hc : c1 = c2) (ho : o1 = o2) :
    RunRes.ok ⟨p1, c1, st, o1⟩ = RunRes.ok ⟨p2, c2, st, o2⟩ := by
  rw [hp, hc, ho]

/-! ### The `outer_loop` on a well-formed element list -/

/-- The `outer_loop` from a state positioned right after an element (or
the opening bracket): scanning the whitespace gap `g` and the following
token, then parsing, for each remaining element, it terminates normally
having consumed exactly the elements and the closing bracket and having
emitted each raw element text plus newline, for every chunking
`oracle` and every parser `P` meeting its contract on the elements. -/
lemma mainLoop_spec (input : List Nat) (oracle : Nat → Nat)
    (P : List Nat → Option (Nat × List Nat)) (suffix : List Nat) :
    ∀ (items : List Item) (fuel : Nat) (g : List Nat) (s : RunState),
      s.skipSt = ⟨false⟩ →
      input.drop s.pos = g ++ afterItems items ++ suffix →
      g.all isWs = true →
      gapsWs items = true →
      parserOk P suffix items = true →
      (g ++ afterItems items).length + items.length + 1 ≤ fuel →
      mainLoop input oracle P fuel s =
        .ok { pos := s.pos + (g ++ afterItems items).length,
              count := s.count + (g ++ afterItems items).length,
              skipSt := ⟨false⟩, out := s.out ++ outLines items } := by
  intro items
  induction items with
  | nil =>
    intro fuel g s hst hrem hg _ _ hfuel
    obtain ⟨f, rfl⟩ : ∃ f, fuel = f + 1 := ⟨fuel - 1, by omega⟩
    have hrem' : input.drop s.pos = g ++ 93 :: suffix := by
      simpa [afterItems] using hrem
    have hscan := scanGap_spec input oracle (f + 1) g suffix 93 s hrem' hg
      (Or.inr ⟨by rw [hst], Or.inr rfl⟩)
      (by simp only [List.length_append, afterItems, List.length_cons,
            List.length_nil] at hfuel ⊢; omega)
    simp only [show ((93 : Nat) == 93) = true from rfl, if_true] at hscan
    simp only [mainLoop, hscan]
    exact ok_state_eq (by simp [afterItems]) (by simp [afterItems])
      (by simp [outLines])
  | cons it rest ih =>
    intro fuel g s hst hrem hg hgaps hP hfuel
    obtain ⟨f, rfl⟩ : ∃ f, fuel = f + 1 := ⟨fuel - 1, by omega⟩
    rw [show gapsWs (it :: rest) = (it.gap.all isWs && gapsWs rest) from rfl,
      Bool.and_eq_true] at hgaps
    rw [show parserOk P suffix (it :: rest) =
        ((P (it.seg ++ it.gap ++ afterItems rest ++ suffix)
            == some (it.seg.length, it.raw)) && parserOk P suffix rest) from rfl,
      Bool.and_eq_true, beq_iff_eq] at hP
    have hrem' : input.drop s.pos =
        g ++ 44 :: (it.seg ++ (it.gap ++ (afterItems rest ++ suffix))) := by
      simpa [afterItems, List.append_assoc] using hrem
    have hscan := scanGap_spec input oracle (f + 1) g _ 44 s hrem' hg
      (Or.inr ⟨by rw [hst], Or.inl rfl⟩)
      (by simp only [List.length_append, afterItems, List.length_cons] at hfuel ⊢
          omega)
    simp only [show ((44 : Nat) == 93) = false from rfl, Bool.false_eq_true,
      if_false] at hscan
    simp only [mainLoop, hscan]
    have hdrop2 : input.drop (s.pos + (g.length + 1)) =
        it.seg ++ (it.gap ++ (afterItems rest ++ suffix)) := by
      rw [← List.drop_drop, hrem', List.drop_append_eq_append_drop,
        List.drop_eq_nil_of_le (by omega),
        show g.length + 1 - g.length = 1 by omega]
      simp
    have hPit : P (it.seg ++ (it.gap ++ (afterItems rest ++ suffix))) =
        some (it.seg.length, it.raw) := by
      rw [← hP.1]
      simp [List.append_assoc]
    simp only [hdrop2, hPit]
    have hdrop3 : input.drop (s.pos + (g.length + 1) + it.seg.length) =
        it.gap ++ afterItems rest ++ suffix := by
      rw [← List.drop_drop, hdrop2, List.drop_append_eq_append_drop,
        List.drop_eq_nil_of_le (le_refl _), Nat.sub_self, List.drop_zero]
      simp [List.append_assoc]
    rw [ih f it.gap
      ⟨s.pos + (g.length + 1) + it.seg.length,
        s.count + (g.length + 1) + it.seg.length, ⟨false⟩,
        s.out ++ it.raw ++ [10]⟩
      rfl hdrop3 hgaps.1 hgaps.2 hP.2
      (by simp only [List.length_append, afterItems, List.length_cons] at hfuel ⊢
          omega)]
    exact ok_state_eq
      (by simp only [List.length_append, afterItems, List.length_cons]; omega)
      (by simp only [List.length_append, afterItems, List.length_cons]; omega)
      (by simp [outLines_cons, List.append_assoc])

/-- A whole run of `main` on a well-formed array with at least one
element: for every chunking `oracle`, every parser `P` meeting its
contract on the elements, and enough fuel, the run terminates normally;
it consumes exactly the bytes up to and including the closing `]`
(`suffix` is untouched), the byte counter equals that number of bytes,
and the output is each element's raw text followed by a newline, in
order. -/
lemma pipeline_run (input : List Nat) (oracle : Nat → Nat)
    (P : List Nat → Option (Nat × List Nat))
    (g0 : List Nat) (it : Item) (rest : List Item) (suffix : List Nat)
    (fuel : Nat)
    (hinput : input = wfInput g0 (it :: rest) suffix)
    (hg0 : g0.all isWs = true)
    (hgaps : gapsWs (it :: rest) = true)
    (hP : parserOk P suffix (it :: rest) = true)
    (hfuel : input.length + (it :: rest).length + 2 ≤ fuel) :
    pipeline input oracle P fuel =
      .ok { pos := (wfInput g0 (it :: rest) []).length,
            count := (wfInput g0 (it :: rest) []).length,
            skipSt := ⟨false⟩, out := outLines (it :: rest) } := by
  subst hinput
  obtain ⟨f, rfl⟩ : ∃ f, fuel = f + 1 := ⟨fuel - 1, by omega⟩
  rw [show parserOk P suffix (it :: rest) =
      ((P (it.seg ++ it.gap ++ afterItems rest ++ suffix)
          == some (it.seg.length, it.raw)) && parserOk P suffix rest) from rfl,
    Bool.and_eq_true, beq_iff_eq] at hP
  rw [show gapsWs (it :: rest) = (it.gap.all isWs && gapsWs rest) from rfl,
    Bool.and_eq_true] at hgaps
  have hrem0 : (wfInput g0 (it :: rest) suffix).drop initState.pos =
      g0 ++ 91 :: (it.seg ++ (it.gap ++ (afterItems rest ++ suffix))) := by
    simp [wfInput, bodyItems, initState, List.append_assoc]
  have hlen : g0.length + 1 ≤ f + 1 := by
    simp only [wfInput, List.length_append, List.length_cons] at hfuel
    omega
  have hscan := scanGap_spec (wfInput g0 (it :: rest) suffix) oracle (f + 1) g0 _
    91 initState hrem0 hg0 (Or.inl ⟨rfl, rfl⟩) hlen
  simp only [show ((91 : Nat) == 93) = false from rfl, Bool.false_eq_true,
    if_false] at hscan
  unfold pipeline
  simp only [mainLoop, hscan]
  have hdrop2 : (wfInput g0 (it :: rest) suffix).drop
      (initState.pos + (g0.length + 1)) =
      it.seg ++ (it.gap ++ (afterItems rest ++ suffix)) := by
    rw [← List.drop_drop, hrem0, List.drop_append_eq_append_drop,
      List.drop_eq_nil_of_le (by omega),
      show g0.length + 1 - g0.length = 1 by omega]
    simp
  have hPit : P (it.seg ++ (it.gap ++ (afterItems rest ++ suffix))) =
      some (it.seg.length, it.raw) := by
    rw [← hP.1]
    simp [List.append_assoc]
  simp only [hdrop2, hPit]
  have hdrop3 : (wfInput g0 (it :: rest) suffix).drop
      (initState.pos + (g0.length + 1) + it.seg.length) =
      it.gap ++ afterItems rest ++ suffix := by
    rw [← List.drop_drop, hdrop2, List.drop_append_eq_append_drop,
      List.drop_eq_nil_of_le (le_refl _), Nat.sub_self, List.drop_zero]
    simp [List.append_assoc]
  rw [mainLoop_spec (wfInput g0 (it :: rest) suffix) oracle P suffix rest f it.gap
    ⟨initState.pos + (g0.length + 1) + it.seg.length,
      initState.count + (g0.length + 1) + it.seg.length, ⟨false⟩,
      initState.out ++ it.raw ++ [10]⟩
    rfl hdrop3 hgaps.1 hgaps.2 hP.2
    (by simp only [wfInput, bodyItems, List.length_append, List.length_cons]
          at hfuel ⊢
        omega)]
  exact ok_state_eq
    (by simp only [initState, wfInput, bodyItems, List.length_append,
          List.length_cons, List.length_nil]
        omega)
    (by simp only [initState, wfInput, bodyItems, List.length_append,
          List.length_cons, List.length_nil]
        omega)
    (by simp [initState, outLines_cons, List.append_assoc])

/-- Helper for output equality: the emitted lines depend only on the
raw element texts, not on the surrounding whitespace. -/
lemma outLines_eq_of_raws {l1 l2 : List Item}
    (h : l1.map Item.raw = l2.map Item.raw) : outLines l1 = outLines l2 := by
  unfold outLines
  have h2 := congrArg (List.map (fun r => r ++ [10])) h
  simp only [List.map_map] at h2
  rw [show ((fun r => r ++ [10]) ∘ Item.raw) =
      (fun it : Item => it.raw ++ [10]) from rfl] at h2
  rw [h2]

/-- Each element's parser-consumed bytes sit contiguously in the input
after the element's separator. -/
lemma seg_infix_afterItems {x : Item} :
    ∀ {items : List Item}, x ∈ items →
      List.IsInfix x.seg (afterItems items) := by
  intro items
  induction items with
  | nil => intro h; cases h
  | cons it rest ih =>
    intro h
    rcases List.mem_cons.mp h with rfl | h
    · exact ⟨[44], x.gap ++ afterItems rest, by simp [afterItems]⟩
    · exact (ih h).trans ⟨44 :: it.seg ++ it.gap, [],
        by simp [afterItems, List.append_assoc]⟩

/-- When the parser echoes the element's bytes (its captured raw text
is a trailing part of what it consumed), every raw element text is a
contiguous slice of the original input. -/
lemma raw_infix_wfInput {x : Item} {g0 : List Nat} {it : Item}
    {rest : List Item} {suffix : List Nat} (hx : x ∈ it :: rest)
    {a : List Nat} (ha : x.seg = a ++ x.raw) :
    List.IsInfix x.raw (wfInput g0 (it :: rest) suffix) := by
  have h1 : List.IsInfix x.raw x.seg := ⟨a, [], by simp [ha]⟩
  have h2 : List.IsInfix x.seg (wfInput g0 (it :: rest) suffix) := by
    rcases List.mem_cons.mp hx with rfl | hx
    · exact ⟨g0 ++ [91], x.gap ++ afterItems rest ++ suffix,
        by simp [wfInput, bodyItems, List.append_assoc]⟩
    · exact (seg_infix_afterItems hx).trans
        ⟨g0 ++ 91 :: it.seg ++ it.gap, suffix,
          by simp [wfInput, bodyItems, List.append_assoc]⟩
  exact h1.trans h2

/-! ### Claims -/

/-- Claim C1, amended: for every well-formed top-level JSON array input
with at least one element (any leading whitespace `g0`, elements with
parser segments `seg`, raw texts `raw` and whitespace gaps `gap`), any
window chunking, any external parser meeting its contract on the
elements, and enough fuel, the program terminates normally and writes
exactly the elements' raw texts, each followed by one newline, in array
order.  (For the empty array the program instead fails, see
`claim_C1_counterexample`.) -/
theorem claim_C1 (oracle : Nat → Nat) (P : List Nat → Option (Nat × List Nat))
    (g0 : List Nat) (it : Item) (rest : List Item) (fuel : Nat)
    (hg0 : g0.all isWs = true)
    (hgaps : gapsWs (it :: rest) = true)
    (hP : parserOk P [] (it :: rest) = true)
    (hfuel : (wfInput g0 (it :: rest) []).length + (it :: rest).length + 2 ≤ fuel) :
    pipeline (wfInput g0 (it :: rest) []) oracle P fuel =
      .ok { pos := (wfInput g0 (it :: rest) []).length,
            count := (wfInput g0 (it :: rest) []).length,
            skipSt := ⟨false⟩, out := outLines (it :: rest) } :=
  pipeline_run _ oracle P g0 it rest [] fuel rfl hg0 hgaps hP hfuel

/-- Witness for C1 at the input `[1,[2,3]]`: output is `1\n[2,3]\n`. -/
theorem claim_C1_witness :
    pipeline [91, 49, 44, 91, 50, 44, 51, 93, 93] (fun _ => 0) jsonParse 30 =
      .ok ⟨9, 9, ⟨false⟩, [49, 10, 91, 50, 44, 51, 93, 10]⟩ :=
  claim_C1 (fun _ => 0) jsonParse [] ⟨[49], [49], []⟩
    [⟨[91, 50, 44, 51, 93], [91, 50, 44, 51, 93], []⟩] 30
    (by decide) (by decide) (by decide) (by decide)

/-- Counterexample to C1 as stated, at `n = 0`: on the well-formed
empty array `[]` the program does not complete the conversion; the
scanner hands the closing `]` to the value parser, which rejects it, so
the run ends in a value-parse error (with zero output lines). -/
theorem claim_C1_counterexample :
    pipeline [91, 93] (fun _ => 0) jsonParse 9 =
      .parseError ⟨1, 1, ⟨false⟩, []⟩ := by
  decide

/-- Claim C2 concerns the input `[]`: the code scans the `[`, reports
`ExpectValue` and unconditionally hands the remaining `]` to the value
parser, which fails — for every chunking and any fuel of at least 2 the
run ends in `parseError` with empty output instead of succeeding. -/
theorem claim_C2_behavior (oracle : Nat → Nat) (fuel : Nat) :
    pipeline [91, 93] oracle jsonParse (fuel + 2) =
      .parseError ⟨1, 1, ⟨false⟩, []⟩ := by
  unfold pipeline
  have hscan : scanGap [91, 93] oracle (fuel + 1 + 1) initState =
      .expectValue ⟨1, 1, ⟨false⟩, []⟩ := by
    rw [scanGap_spec [91, 93] oracle (fuel + 1 + 1) [] [93] 91 initState
      rfl rfl (Or.inl ⟨rfl, rfl⟩) (by simp only [List.length_nil]; omega)]
    decide
  exact mainLoop_step_err hscan rfl

/-- Claim C3 concerns end of input where a structural token is still
required.  There the code does not fail: `fill_buf` returns an empty
window, `skip` returns `KeepSkipping` having consumed zero bytes, and
the `remove_prefix` loop repeats forever.  On the all-whitespace
input `" "` and on the truncated array `[1` (after emitting `1\n`),
the run exhausts every fuel, for every chunking — the program hangs
instead of reporting an error. -/
theorem claim_C3_divergence (oracle : Nat → Nat) (fuel : Nat) :
    pipeline [32] oracle jsonParse fuel = .fuelOut ∧
    pipeline [91, 49] oracle jsonParse fuel = .fuelOut := by
  constructor
  · cases fuel with
    | zero => rfl
    | succ f =>
      unfold pipeline
      have hwin : window [32] oracle initState = [32] := by
        simp [window, initState]
      have hskip : initState.skipSt.skip (window [32] oracle initState) =
          some (⟨true⟩, .keepSkipping, 1) := by
        rw [hwin]; rfl
      have hsg : scanGap [32] oracle (f + 1) initState = .fuelOut := by
        simp only [scanGap, hskip]
        exact scanGap_eof [32] oracle f _ (by simp [initState])
      simp only [mainLoop, hsg]
  · cases fuel with
    | zero => rfl
    | succ f =>
      unfold pipeline
      have hscan : scanGap [91, 49] oracle (f + 1) initState =
          .expectValue ⟨1, 1, ⟨false⟩, []⟩ := by
        rw [scanGap_spec [91, 49] oracle (f + 1) [] [49] 91 initState
          rfl rfl (Or.inl ⟨rfl, rfl⟩) (by simp only [List.length_nil]; omega)]
        decide
      exact (mainLoop_step_ev hscan rfl).trans
        (mainLoop_eof [91, 49] oracle jsonParse f ⟨2, 2, ⟨false⟩, [49, 10]⟩
          (by decide))

/-- Claim C4, amended: the scanner's skippable whitespace is space, tab
and newline (carriage return is not skippable, see
`claim_C4_counterexample`); two well-formed inputs that carry the same
raw element texts but different such whitespace produce identical
output. -/
theorem claim_C4 (oracle oracle2 : Nat → Nat)
    (P P2 : List Nat → Option (Nat × List Nat))
    (g0 g02 : List Nat) (it it2 : Item) (rest rest2 : List Item)
    (fuel fuel2 : Nat)
    (hg0 : g0.all isWs = true) (hg02 : g02.all isWs = true)
    (hgaps : gapsWs (it :: rest) = true) (hgaps2 : gapsWs (it2 :: rest2) = true)
    (hP : parserOk P [] (it :: rest) = true)
    (hP2 : parserOk P2 [] (it2 :: rest2) = true)
    (hfuel : (wfInput g0 (it :: rest) []).length + (it :: rest).length + 2 ≤ fuel)
    (hfuel2 : (wfInput g02 (it2 :: rest2) []).length + (it2 :: rest2).length + 2 ≤ fuel2)
    (hraws : (it :: rest).map Item.raw = (it2 :: rest2).map Item.raw) :
    pipeline (wfInput g0 (it :: rest) []) oracle P fuel =
      .ok { pos := (wfInput g0 (it :: rest) []).length,
            count := (wfInput g0 (it :: rest) []).length,
            skipSt := ⟨false⟩, out := outLines (it :: rest) } ∧
    pipeline (wfInput g02 (it2 :: rest2) []) oracle2 P2 fuel2 =
      .ok { pos := (wfInput g02 (it2 :: rest2) []).length,
            count := (wfInput g02 (it2 :: rest2) []).length,
            skipSt := ⟨false⟩, out := outLines (it2 :: rest2) } ∧
    outLines (it :: rest) = outLines (it2 :: rest2) :=
  ⟨pipeline_run _ oracle P g0 it rest [] fuel rfl hg0 hgaps hP hfuel,
    pipeline_run _ oracle2 P2 g02 it2 rest2 [] fuel2 rfl hg02 hgaps2 hP2 hfuel2,
    outLines_eq_of_raws hraws⟩

/-- Witness for C4 at the spec's own example: `[ 1 , 2 ]` and `[1,2]`
both produce `1\n2\n`. -/
theorem claim_C4_witness :
    pipeline [91, 32, 49, 32, 44, 32, 50, 32, 93] (fun _ => 1) jsonParse 20 =
      .ok ⟨9, 9, ⟨false⟩, [49, 10, 50, 10]⟩ ∧
    pipeline [91, 49, 44, 50, 93] (fun _ => 3) jsonParse 20 =
      .ok ⟨5, 5, ⟨false⟩, [49, 10, 50, 10]⟩ ∧
    ([49, 10, 50, 10] : List Nat) = [49, 10, 50, 10] :=
  claim_C4 (fun _ => 1) (fun _ => 3) jsonParse jsonParse [] []
    ⟨[32, 49], [49], [32]⟩ ⟨[49], [49], []⟩
    [⟨[32, 50], [50], [32]⟩] [⟨[50], [50], []⟩] 20 20
    (by decide) (by decide) (by decide) (by decide) (by decide) (by decide)
    (by decide) (by decide) (by decide)

/-- Counterexample to C4 as stated: carriage return (13) is not
skippable by the scanner.  `[1\r]` and `[1]` differ only by a carriage
return in the whitespace gap between the element and `]`, yet the first
run hits the scanner's malformed-input panic while the second
succeeds — the outputs are not identical. -/
theorem claim_C4_counterexample :
    pipeline [91, 49, 13, 93] (fun _ => 7) jsonParse 9 =
      .panicked ⟨2, 2, ⟨false⟩, [49, 10]⟩ ∧
    pipeline [91, 49, 93] (fun _ => 7) jsonParse 9 =
      .ok ⟨3, 3, ⟨false⟩, [49, 10]⟩ := by
  decide

/-- Claim C5: after a successful run on a well-formed array (no
trailing bytes), the byte counter equals the total number of input
bytes up to and including the terminating `]`, for every chunking of
the input into lookahead windows (`oracle` is universally quantified),
and it equals the number of consumed bytes exactly (`s.count = s.pos`:
each consumed byte is counted once; `fill_buf` peeking never counts). -/
theorem claim_C5 (oracle : Nat → Nat) (P : List Nat → Option (Nat × List Nat))
    (g0 : List Nat) (it : Item) (rest : List Item) (fuel : Nat)
    (hg0 : g0.all isWs = true)
    (hgaps : gapsWs (it :: rest) = true)
    (hP : parserOk P [] (it :: rest) = true)
    (hfuel : (wfInput g0 (it :: rest) []).length + (it :: rest).length + 2 ≤ fuel) :
    ∃ s : RunState,
      pipeline (wfInput g0 (it :: rest) []) oracle P fuel = .ok s ∧
      s.count = (wfInput g0 (it :: rest) []).length ∧
      s.count = s.pos :=
  ⟨_, pipeline_run _ oracle P g0 it rest [] fuel rfl hg0 hgaps hP hfuel,
    rfl, rfl⟩

/-- Witness for C5 at `[ 1 ]`: the counter ends at 5. -/
theorem claim_C5_witness :
    ∃ s : RunState,
      pipeline [91, 32, 49, 32, 93] (fun _ => 0) jsonParse 10 = .ok s ∧
      s.count = 5 ∧ s.count = s.pos :=
  claim_C5 (fun _ => 0) jsonParse [] ⟨[32, 49], [49], [32]⟩ [] 10
    (by decide) (by decide) (by decide) (by decide)

/-- Claim C6: on the malformed input `[1,]`, for every chunking and any
fuel of at least 6, the parser called after the comma rejects `]`; the
run ends in `parseError` and the output at that point is exactly the
one line `1\n`. -/
theorem claim_C6 (oracle : Nat → Nat) (fuel : Nat) :
    pipeline [91, 49, 44, 93] oracle jsonParse (fuel + 6) =
      .parseError ⟨3, 3, ⟨false⟩, [49, 10]⟩ := by
  unfold pipeline
  have hscan : scanGap [91, 49, 44, 93] oracle (fuel + 5 + 1) initState =
      .expectValue ⟨1, 1, ⟨false⟩, []⟩ := by
    rw [scanGap_spec [91, 49, 44, 93] oracle (fuel + 5 + 1) [] [49, 44, 93] 91
      initState rfl rfl (Or.inl ⟨rfl, rfl⟩) (by simp only [List.length_nil]; omega)]
    decide
  have hscan2 : scanGap [91, 49, 44, 93] oracle (fuel + 4 + 1)
      ⟨2, 2, ⟨false⟩, [49, 10]⟩ = .expectValue ⟨3, 3, ⟨false⟩, [49, 10]⟩ := by
    rw [scanGap_spec [91, 49, 44, 93] oracle (fuel + 4 + 1) [] [93] 44
      ⟨2, 2, ⟨false⟩, [49, 10]⟩ rfl rfl (Or.inr ⟨rfl, Or.inl rfl⟩)
      (by simp only [List.length_nil]; omega)]
    decide
  exact (mainLoop_step_ev hscan rfl).trans (mainLoop_step_err hscan2 rfl)

/-- Claim C7: with arbitrary trailing bytes `suffix` after the closing
`]`, the run still succeeds, and the final reading position is the
length of the array part alone: no trailing byte is consumed, and the
output is the same as without trailing bytes. -/
theorem claim_C7 (oracle : Nat → Nat) (P : List Nat → Option (Nat × List Nat))
    (g0 : List Nat) (it : Item) (rest : List Item) (suffix : List Nat)
    (fuel : Nat)
    (hg0 : g0.all isWs = true)
    (hgaps : gapsWs (it :: rest) = true)
    (hP : parserOk P suffix (it :: rest) = true)
    (hfuel : (wfInput g0 (it :: rest) suffix).length + (it :: rest).length + 2 ≤ fuel) :
    ∃ s : RunState,
      pipeline (wfInput g0 (it :: rest) suffix) oracle P fuel = .ok s ∧
      s.pos = (wfInput g0 (it :: rest) []).length ∧
      s.out = outLines (it :: rest) :=
  ⟨_, pipeline_run _ oracle P g0 it rest suffix fuel rfl hg0 hgaps hP hfuel,
    rfl, rfl⟩

/-- Witness for C7 at `[1]xyz`: the run succeeds having consumed
exactly 3 bytes; `xyz` is untouched. -/
theorem claim_C7_witness :
    ∃ s : RunState,
      pipeline [91, 49, 93, 120, 121, 122] (fun _ => 5) jsonParse 12 = .ok s ∧
      s.pos = 3 ∧ s.out = [49, 10] :=
  claim_C7 (fun _ => 5) jsonParse [] ⟨[49], [49], []⟩ [] [120, 121, 122] 12
    (by decide) (by decide) (by decide) (by decide)

/-- Claim C9: on a well-formed array input (with at least one element),
the scanner's malformed-input panic branch is never reached: the run
ends in normal termination, not in `panicked`, for every chunking. -/
theorem claim_C9 (oracle : Nat → Nat) (P : List Nat → Option (Nat × List Nat))
    (g0 : List Nat) (it : Item) (rest : List Item) (fuel : Nat)
    (hg0 : g0.all isWs = true)
    (hgaps : gapsWs (it :: rest) = true)
    (hP : parserOk P [] (it :: rest) = true)
    (hfuel : (wfInput g0 (it :: rest) []).length + (it :: rest).length + 2 ≤ fuel) :
    ∀ s : RunState,
      pipeline (wfInput g0 (it :: rest) []) oracle P fuel ≠ .panicked s := by
  intro s
  rw [pipeline_run _ oracle P g0 it rest [] fuel rfl hg0 hgaps hP hfuel]
  simp

/-- Witness for C9 at `[true]`. -/
theorem claim_C9_witness :
    pipeline [91, 116, 114, 117, 101, 93] (fun _ => 2) jsonParse 12 ≠
      .panicked initState :=
  claim_C9 (fun _ => 2) jsonParse []
    ⟨[116, 114, 117, 101], [116, 114, 117, 101], []⟩ [] 12
    (by decide) (by decide) (by decide) (by decide) initState

/-- Claim C10: the bytes of each output record before its terminating
newline are exactly the element's raw text as captured by the parser,
and — when the parser echoes bytes (captured raw text is a trailing
part of the consumed segment, as `serde_json`'s `RawValue` does) — that
raw text is a contiguous slice of the original input: a byte-preserving
echo, with no re-encoding. -/
theorem claim_C10 (oracle : Nat → Nat) (P : List Nat → Option (Nat × List Nat))
    (g0 : List Nat) (it : Item) (rest : List Item) (fuel : Nat)
    (hg0 : g0.all isWs = true)
    (hgaps : gapsWs (it :: rest) = true)
    (hP : parserOk P [] (it :: rest) = true)
    (hfuel : (wfInput g0 (it :: rest) []).length + (it :: rest).length + 2 ≤ fuel)
    (hecho : ∀ x ∈ it :: rest, ∃ a, x.seg = a ++ x.raw) :
    pipeline (wfInput g0 (it :: rest) []) oracle P fuel =
      .ok { pos := (wfInput g0 (it :: rest) []).length,
            count := (wfInput g0 (it :: rest) []).length,
            skipSt := ⟨false⟩, out := outLines (it :: rest) } ∧
    ∀ x ∈ it :: rest, List.IsInfix x.raw (wfInput g0 (it :: rest) []) := by
  refine ⟨pipeline_run _ oracle P g0 it rest [] fuel rfl hg0 hgaps hP hfuel, ?_⟩
  intro x hx
  obtain ⟨a, ha⟩ := hecho x hx
  exact raw_infix_wfInput hx ha

/-- Witness for C10 at `["a"]`: the output record `"a"` is a slice of
the input. -/
theorem claim_C10_witness :
    pipeline [91, 34, 97, 34, 93] (fun _ => 9) jsonParse 11 =
      .ok ⟨5, 5, ⟨false⟩, [34, 97, 34, 10]⟩ ∧
    List.IsInfix [34, 97, 34] [91, 34, 97, 34, 93] := by
  have h := claim_C10 (fun _ => 9) jsonParse [] ⟨[34, 97, 34], [34, 97, 34], []⟩
    [] 11 (by decide) (by decide) (by decide) (by decide)
    (by intro x hx
        simp only [List.mem_singleton] at hx
        subst hx
        exact ⟨[], rfl⟩)
  exact ⟨h.1, h.2 ⟨[34, 97, 34], [34, 97, 34], []⟩ (by simp)⟩

end Json2Jsonl
